import Mathlib

/-!
Shallow embedding of the comparison engine in `SourceCodeComparer.py`:
the digest short-circuit (`fast_hash`), text decoding (`read_lines`),
the tree scanner (`collect_source_files`), the per-file comparator
(`compare_file`) together with a faithful model of Python's
`difflib.unified_diff`, and the pure core of `_comparison_worker`
(plan construction, result collection, sorting, summary).

Files are modelled by a `FileState`: absent, or present with a byte
content and a readability flag (an unreadable file is one whose
`open`/`read` raises `OSError`).  Bytes are `Nat`s below 256.
-/

namespace SourceComparer

/-- Python `str.startswith`: the second string is a leading piece of the first. -/
def starts_with (s pre : String) : Bool := pre.data.isPrefixOf s.data

/-- Python `str.endswith`: the second string is a trailing piece of the first. -/
def ends_with (s suf : String) : Bool := suf.data.isSuffixOf s.data

/-- Removal of trailing newline characters from a character list. -/
def rstripL (l : List Char) : List Char := (l.reverse.dropWhile (fun c => c == '\n')).reverse

/-- Python `l.rstrip("\n")`: remove every trailing newline character. -/
def rstrip_newline (s : String) : String := String.mk (rstripL s.data)

/-- Whether a string still carries a trailing newline character. -/
def ends_with_newline (s : String) : Bool := s.data.getLast? == some '\n'

/-- Result of examining the head of a byte stream with CPython's UTF-8
decoder: a decoded codepoint consuming `used` bytes, an invalid maximal
subpart of `used` bytes, or the end of the stream. -/
inductive DecStep where
  | ok (c : Nat) (used : Nat)
  | bad (used : Nat)
  | done
deriving DecidableEq

/-- One step of UTF-8 decoding, with CPython's validity checks
(continuation ranges per leading byte, no overlongs, no surrogates,
nothing above U+10FFFF). -/
def utf8_step : List Nat → DecStep
  | [] => .done
  | b :: rest =>
    if b < 0x80 then .ok b 1
    else if b < 0xC2 then .bad 1
    else if b ≤ 0xDF then
      match rest with
      | c1 :: _ =>
        if 0x80 ≤ c1 ∧ c1 ≤ 0xBF then .ok ((b - 0xC0) * 0x40 + (c1 - 0x80)) 2 else .bad 1
      | [] => .bad 1
    else if b ≤ 0xEF then
      let lo2 := if b = 0xE0 then 0xA0 else 0x80
      let hi2 := if b = 0xED then 0x9F else 0xBF
      match rest with
      | [] => .bad 1
      | c1 :: rest2 =>
        if lo2 ≤ c1 ∧ c1 ≤ hi2 then
          match rest2 with
          | [] => .bad 2
          | c2 :: _ =>
            if 0x80 ≤ c2 ∧ c2 ≤ 0xBF then
              .ok (((b - 0xE0) * 0x40 + (c1 - 0x80)) * 0x40 + (c2 - 0x80)) 3
            else .bad 2
        else .bad 1
    else if b ≤ 0xF4 then
      let lo2 := if b = 0xF0 then 0x90 else 0x80
      let hi2 := if b = 0xF4 then 0x8F else 0xBF
      match rest with
      | [] => .bad 1
      | c1 :: rest2 =>
        if lo2 ≤ c1 ∧ c1 ≤ hi2 then
          match rest2 with
          | [] => .bad 2
          | c2 :: rest3 =>
            if 0x80 ≤ c2 ∧ c2 ≤ 0xBF then
              match rest3 with
              | [] => .bad 3
              | c3 :: _ =>
                if 0x80 ≤ c3 ∧ c3 ≤ 0xBF then
                  .ok (((((b - 0xF0) * 0x40 + (c1 - 0x80)) * 0x40 + (c2 - 0x80)) * 0x40) + (c3 - 0x80)) 4
                else .bad 3
            else .bad 2
        else .bad 1
    else .bad 1

/-- The U+FFFD replacement character used by `errors="replace"`. -/
def repl_char : Char := Char.ofNat 0xFFFD

/-- UTF-8 decoding with `errors="replace"`: total, each invalid maximal
subpart becomes one replacement character.  The fuel is the remaining
byte count; every step consumes at least one byte. -/
def utf8_decode_replace : Nat → List Nat → List Char
  | 0, _ => []
  | fuel + 1, bs =>
    match utf8_step bs with
    | .done => []
    | .ok c used => Char.ofNat c :: utf8_decode_replace fuel (bs.drop used)
    | .bad used => repl_char :: utf8_decode_replace fuel (bs.drop used)

/-- UTF-8 decoding with `errors="strict"`: fails on the first invalid byte. -/
def utf8_decode_strict : Nat → List Nat → Option (List Char)
  | 0, _ => some []
  | fuel + 1, bs =>
    match utf8_step bs with
    | .done => some []
    | .ok c used =>
      match utf8_decode_strict fuel (bs.drop used) with
      | some cs => some (Char.ofNat c :: cs)
      | none => none
    | .bad _ => none

/-- The encodings tried by `read_lines`: `("utf-8", "utf-8-sig", "latin-1")`. -/
inductive Enc where
  | utf8
  | utf8sig
  | latin1
deriving DecidableEq

/-- Decoding a whole byte stream with `errors="replace"`; this never fails
for any of the three encodings.  `utf-8-sig` strips a leading byte-order
mark, `latin-1` maps every byte to the codepoint of the same value. -/
def decode_replace : Enc → List Nat → List Char
  | .utf8, bs => utf8_decode_replace bs.length bs
  | .utf8sig, bs =>
    let bs2 := if bs.take 3 = [0xEF, 0xBB, 0xBF] then bs.drop 3 else bs
    utf8_decode_replace bs2.length bs2
  | .latin1, bs => bs.map (fun b => Char.ofNat b)

/-- Strict `utf-8-sig` decoding (used only by the spec-worded chain). -/
def utf8sig_decode_strict (bs : List Nat) : Option (List Char) :=
  let bs2 := if bs.take 3 = [0xEF, 0xBB, 0xBF] then bs.drop 3 else bs
  utf8_decode_strict bs2.length bs2

/-- Universal-newline translation of text mode: `\r\n` and lone `\r`
become `\n`. -/
def universal_newlines : List Char → List Char
  | [] => []
  | '\r' :: '\n' :: rest => '\n' :: universal_newlines rest
  | '\r' :: rest => '\n' :: universal_newlines rest
  | c :: rest => c :: universal_newlines rest

/-- Helper of `split_lines_keepends`: accumulates the current line in
reverse. -/
def split_lines_go : List Char → List Char → List String
  | acc, [] => if acc.isEmpty then [] else [String.mk acc.reverse]
  | acc, c :: rest =>
    if c = '\n' then String.mk (acc.reverse ++ ['\n']) :: split_lines_go [] rest
    else split_lines_go (c :: acc) rest

/-- Python `f.readlines()` on decoded text: split after each newline,
keeping the newline; a final unterminated line is kept too. -/
def split_lines_keepends (cs : List Char) : List String := split_lines_go [] cs

/-- State of a path on disk: no regular file, or a file with a byte
content that either can or cannot be read. -/
inductive FileState where
  | absent
  | file (readable : Bool) (bytes : List Nat)
deriving DecidableEq

/-- A filesystem: what `os.path.isfile`, `open` and `read` see at each path. -/
def FS := String → FileState

/-- Python `os.path.isfile`. -/
def isfile : FileState → Bool
  | .absent => false
  | .file _ _ => true

/-- Model of `hashlib.md5().hexdigest()` over a byte stream.  `compare_file`
only ever tests digests for equality, so the digest is modelled as an
injective rendering of the bytes; it keeps the two properties the source
relies on: equal byte streams give equal digests, and a digest of a
readable file is never the empty string. -/
def md5_hexdigest (bs : List Nat) : String :=
  "md5:" ++ String.intercalate "." (bs.map (fun b => toString b))

/-- Source `fast_hash`: stream the file into md5, but return the empty
string if `open`/`read` raises `OSError` (missing or unreadable file). -/
def fast_hash : FileState → String
  | .absent => ""
  | .file false _ => ""
  | .file true bs => md5_hexdigest bs

/-- One iteration of the `read_lines` loop: `open(filepath, "r",
encoding=enc, errors="replace")` followed by `readlines()`.  Opening an
absent or unreadable file raises and the attempt yields nothing; decoding
itself never raises because every attempt passes `errors="replace"`. -/
def read_attempt (st : FileState) (e : Enc) : Option (List String) :=
  match st with
  | .absent => none
  | .file false _ => none
  | .file true bs => some (split_lines_keepends (universal_newlines (decode_replace e bs)))

/-- Source `read_lines`: try `utf-8`, `utf-8-sig`, `latin-1` in order, each
with `errors="replace"`; return `[]` when every attempt raises. -/
def read_lines (st : FileState) : List String :=
  match read_attempt st .utf8 with
  | some ls => ls
  | none =>
    match read_attempt st .utf8sig with
    | some ls => ls
    | none =>
      match read_attempt st .latin1 with
      | some ls => ls
      | none => []

/-- Modelled from the spec: the decoding chain as the spec words it —
UTF-8 strict, then UTF-8 with byte-order-mark tolerance (strict), then a
single-byte fallback that decodes any byte sequence, replacing
undecodable bytes with a placeholder.  This is the refinement target for
the claim about `read_lines`; the source passes `errors="replace"` to
every stage instead. -/
def read_lines_spec_chain (bs : List Nat) : List String :=
  match utf8_decode_strict bs.length bs with
  | some cs => split_lines_keepends (universal_newlines cs)
  | none =>
    match utf8sig_decode_strict bs with
    | some cs => split_lines_keepends (universal_newlines cs)
    | none => split_lines_keepends (universal_newlines (decode_replace .latin1 bs))

/-- Python `a[i:j]` for lists (with `0 ≤ i ≤ j`). -/
def list_slice (a : List String) (i j : Nat) : List String := (a.drop i).take (j - i)

/-- All indices at which `x` occurs in `b`, in ascending order: the `b2j`
entry of `difflib.SequenceMatcher` for `x`. -/
def occ_indices (b : List String) (x : String) : List Nat :=
  (List.range b.length).filter (fun j => b.getD j "" == x)

/-- The autojunk heuristic of `SequenceMatcher.__chain_b` with
`isjunk=None`: when `len(b) >= 200`, an element occurring more than
`len(b) // 100 + 1` times is dropped from `b2j`. -/
def is_popular (b : List String) (x : String) : Bool :=
  decide (b.length ≥ 200) && decide ((occ_indices b x).length > b.length / 100 + 1)

/-- `b2j.get(x, [])` after `__chain_b`: occurrence indices unless the
element is popular.  `bjunk` is empty since the comparer passes
`isjunk=None`. -/
def b2j_get (b : List String) (x : String) : List Nat :=
  if is_popular b x then [] else occ_indices b x

/-- Inner `j`-loop of `find_longest_match` over the ascending occurrence
list of `a[i]`: `continue` below `blo`, `break` at `bhi`, and extend the
run lengths recorded in `j2len` (a finitely supported map modelled as a
function defaulting to 0; recorded lengths are always positive).  Returns
the new `j2len` and the updated best `(besti, bestj, bestsize)`. -/
def flm_js (i blo bhi : Nat) :
    List Nat → (Nat → Nat) → (Nat → Nat) → Nat × Nat × Nat → (Nat → Nat) × (Nat × Nat × Nat)
  | [], _, newj2len, best => (newj2len, best)
  | j :: js, j2len, newj2len, best =>
    if j < blo then flm_js i blo bhi js j2len newj2len best
    else if bhi ≤ j then (newj2len, best)
    else
      let k := (if j = 0 then 0 else j2len (j - 1)) + 1
      let newj2len2 := fun j2 => if j2 = j then k else newj2len j2
      let best2 := if k > best.2.2 then (i + 1 - k, j + 1 - k, k) else best
      flm_js i blo bhi js j2len newj2len2 best2

/-- Outer `i`-loop of `find_longest_match`: each iteration starts a fresh
`newj2len` and reads the previous iteration's map. -/
def flm_outer (a b : List String) (blo bhi : Nat) :
    List Nat → (Nat → Nat) → Nat × Nat × Nat → Nat × Nat × Nat
  | [], _, best => best
  | i :: is2, j2len, best =>
    let r := flm_js i blo bhi (b2j_get b (a.getD i "")) j2len (fun _ => 0) best
    flm_outer a b blo bhi is2 r.1 r.2

/-- Leftward extension of the best block (`while besti > alo and
bestj > blo and a[besti-1] == b[bestj-1]`).  All indices reached are in
range for the matcher's call pattern.  The fuel is the starting `besti`,
which strictly decreases each step. -/
def extend_lo (a b : List String) (alo blo : Nat) : Nat → Nat × Nat × Nat → Nat × Nat × Nat
  | 0, best => best
  | fuel + 1, (besti, bestj, k) =>
    if alo < besti && blo < bestj && (a.getD (besti - 1) "" == b.getD (bestj - 1) "") then
      extend_lo a b alo blo fuel (besti - 1, bestj - 1, k + 1)
    else (besti, bestj, k)

/-- Rightward extension of the best block (`while besti+bestsize < ahi
...`).  The fuel is `ahi`, a bound on the number of steps. -/
def extend_hi (a b : List String) (ahi bhi : Nat) : Nat → Nat × Nat × Nat → Nat × Nat × Nat
  | 0, best => best
  | fuel + 1, (besti, bestj, k) =>
    if besti + k < ahi && bestj + k < bhi && (a.getD (besti + k) "" == b.getD (bestj + k) "") then
      extend_hi a b ahi bhi fuel (besti, bestj, k + 1)
    else (besti, bestj, k)

/-- `SequenceMatcher.find_longest_match(alo, ahi, blo, bhi)` with
`isjunk=None`: the two junk-extension loops of the source never run
because `bjunk` is empty, so only the plain extension loops appear. -/
def find_longest_match (a b : List String) (alo ahi blo bhi : Nat) : Nat × Nat × Nat :=
  let best := flm_outer a b blo bhi ((List.range ahi).drop alo) (fun _ => 0) (alo, blo, 0)
  let best2 := extend_lo a b alo blo best.1 best
  extend_hi a b ahi bhi ahi best2

/-- `get_matching_blocks` divide-and-conquer around the longest match.
The Python version drains an explicit LIFO queue and then sorts the
collected blocks; the recursion below yields the same blocks already in
ascending order.  The fuel bounds the window sizes, which shrink at each
recursive call. -/
def matching_blocks_rec (a b : List String) : Nat → Nat → Nat → Nat → Nat → List (Nat × Nat × Nat)
  | 0, _, _, _, _ => []
  | fuel + 1, alo, ahi, blo, bhi =>
    let m := find_longest_match a b alo ahi blo bhi
    let i := m.1
    let j := m.2.1
    let k := m.2.2
    if k = 0 then []
    else
      (if alo < i && blo < j then matching_blocks_rec a b fuel alo i blo j else [])
        ++ [(i, j, k)]
        ++ (if i + k < ahi && j + k < bhi then matching_blocks_rec a b fuel (i + k) ahi (j + k) bhi else [])

/-- Adjacency-merging pass at the end of `get_matching_blocks`, starting
from `i1 = j1 = k1 = 0`. -/
def merge_adjacent : Nat × Nat × Nat → List (Nat × Nat × Nat) → List (Nat × Nat × Nat)
  | (i1, j1, k1), [] => if k1 ≠ 0 then [(i1, j1, k1)] else []
  | (i1, j1, k1), (i2, j2, k2) :: rest =>
    if i1 + k1 = i2 ∧ j1 + k1 = j2 then merge_adjacent (i1, j1, k1 + k2) rest
    else (if k1 ≠ 0 then [(i1, j1, k1)] else []) ++ merge_adjacent (i2, j2, k2) rest

/-- `SequenceMatcher.get_matching_blocks()`: recursive block discovery,
adjacency merging, and the terminal `(len(a), len(b), 0)` sentinel. -/
def get_matching_blocks (a b : List String) : List (Nat × Nat × Nat) :=
  merge_adjacent (0, 0, 0)
      (matching_blocks_rec a b (a.length + b.length + 1) 0 a.length 0 b.length)
    ++ [(a.length, b.length, 0)]

/-- One `(tag, i1, i2, j1, j2)` entry of `get_opcodes`. -/
structure Opcode where
  tag : String
  i1 : Nat
  i2 : Nat
  j1 : Nat
  j2 : Nat
deriving DecidableEq

/-- Loop of `get_opcodes` over the matching blocks, threading the cursor
`(i, j)`. -/
def opcodes_loop : Nat → Nat → List (Nat × Nat × Nat) → List Opcode
  | _, _, [] => []
  | i, j, (ai, bj, size) :: rest =>
    (if i < ai ∧ j < bj then [⟨"replace", i, ai, j, bj⟩]
     else if i < ai then [⟨"delete", i, ai, j, bj⟩]
     else if j < bj then [⟨"insert", i, ai, j, bj⟩]
     else [])
      ++ (if size ≠ 0 then [⟨"equal", ai, ai + size, bj, bj + size⟩] else [])
      ++ opcodes_loop (ai + size) (bj + size) rest

/-- `SequenceMatcher.get_opcodes()`. -/
def get_opcodes (a b : List String) : List Opcode := opcodes_loop 0 0 (get_matching_blocks a b)

/-- `get_grouped_opcodes` fixup of a leading `equal` opcode. -/
def adjust_head (n : Nat) : List Opcode → List Opcode
  | [] => []
  | c :: rest =>
    if c.tag = "equal" then ⟨c.tag, max c.i1 (c.i2 - n), c.i2, max c.j1 (c.j2 - n), c.j2⟩ :: rest
    else c :: rest

/-- `get_grouped_opcodes` fixup of a trailing `equal` opcode. -/
def adjust_last (n : Nat) : List Opcode → List Opcode
  | [] => []
  | [c] =>
    if c.tag = "equal" then [⟨c.tag, c.i1, min c.i2 (c.i1 + n), c.j1, min c.j2 (c.j1 + n)⟩]
    else [c]
  | c :: rest => c :: adjust_last n rest

/-- Grouping loop of `get_grouped_opcodes`: a large unchanged range ends
the current group and starts the next. -/
def group_loop (n : Nat) : List Opcode → List Opcode → List (List Opcode)
  | group, [] =>
    if !group.isEmpty && !(group.length == 1 && (group.headD ⟨"", 0, 0, 0, 0⟩).tag == "equal")
    then [group] else []
  | group, c :: rest =>
    if c.tag == "equal" && decide (c.i2 - c.i1 > n + n) then
      (group ++ [⟨c.tag, c.i1, min c.i2 (c.i1 + n), c.j1, min c.j2 (c.j1 + n)⟩])
        :: group_loop n [⟨c.tag, max c.i1 (c.i2 - n), c.i2, max c.j1 (c.j2 - n), c.j2⟩] rest
    else group_loop n (group ++ [c]) rest

/-- `SequenceMatcher.get_grouped_opcodes(n)`. -/
def get_grouped_opcodes (a b : List String) (n : Nat) : List (List Opcode) :=
  let codes := get_opcodes a b
  let codes2 := if codes.isEmpty then [⟨"equal", 0, 1, 0, 1⟩] else codes
  group_loop n [] (adjust_last n (adjust_head n codes2))

/-- `difflib._format_range_unified(start, stop)`. -/
def format_range_unified (start stop : Nat) : String :=
  let beginning := start + 1
  let len2 := stop - start
  if len2 = 1 then toString beginning
  else toString (if len2 = 0 then beginning - 1 else beginning) ++ "," ++ toString len2

/-- Tagged lines emitted for one opcode of a group in `unified_diff`. -/
def format_opcode_lines (a b : List String) (c : Opcode) : List String :=
  if c.tag == "equal" then (list_slice a c.i1 c.i2).map (fun l => " " ++ l)
  else
    (if c.tag == "replace" || c.tag == "delete" then
      (list_slice a c.i1 c.i2).map (fun l => "-" ++ l)
     else [])
      ++ (if c.tag == "replace" || c.tag == "insert" then
            (list_slice b c.j1 c.j2).map (fun l => "+" ++ l)
          else [])

/-- Hunk header plus tagged lines for one group of `unified_diff`. -/
def format_group (a b : List String) (g : List Opcode) : List String :=
  let first := g.headD ⟨"equal", 0, 0, 0, 0⟩
  let last := g.getLastD ⟨"equal", 0, 0, 0, 0⟩
  ("@@ -" ++ format_range_unified first.i1 last.i2
      ++ " +" ++ format_range_unified first.j1 last.j2 ++ " @@\n")
    :: (g.map (format_opcode_lines a b)).flatten

/-- `difflib.unified_diff(a, b, fromfile, tofile, n=n)` with the default
line terminator and no file dates: the two file-header lines are emitted
once, before the first group, so the output is empty exactly when there
are no groups. -/
def unified_diff (a b : List String) (fromfile tofile : String) (n : Nat) : List String :=
  let groups := get_grouped_opcodes a b n
  if groups.isEmpty then []
  else
    ("--- " ++ fromfile ++ "\n") :: ("+++ " ++ tofile ++ "\n")
      :: (groups.map (format_group a b)).flatten

/-- The `FileDiff` dataclass of the source. -/
structure FileDiff where
  relative_path : String
  status : String
  location_a : Option String
  location_b : Option String
  lines_added : Nat
  lines_removed : Nat
  diff : List String
deriving DecidableEq

/-- Source `compare_file(rel_path, path_a, path_b, context_lines)`:
existence checks, digest short-circuit, unified diff, the marker-lookahead
line counts, and the `rstrip("\n")` over stored diff lines. -/
def compare_file (fs : FS) (rel_path path_a path_b : String) (context_lines : Nat) :
    Option FileDiff :=
  let exists_a := isfile (fs path_a)
  let exists_b := isfile (fs path_b)
  if exists_a && exists_b then
    if fast_hash (fs path_a) = fast_hash (fs path_b) then none
    else
      let diff_lines := unified_diff (read_lines (fs path_a)) (read_lines (fs path_b))
        ("A/" ++ rel_path) ("B/" ++ rel_path) context_lines
      if diff_lines.isEmpty then none
      else
        some { relative_path := rel_path, status := "modified",
               location_a := some path_a, location_b := some path_b,
               lines_added :=
                 diff_lines.countP (fun l => starts_with l "+" && !(starts_with l "+++")),
               lines_removed :=
                 diff_lines.countP (fun l => starts_with l "-" && !(starts_with l "---")),
               diff := diff_lines.map rstrip_newline }
  else if exists_a && !exists_b then
    some { relative_path := rel_path, status := "removed",
           location_a := some path_a, location_b := none,
           lines_added := 0, lines_removed := 0, diff := [] }
  else if !exists_a && exists_b then
    some { relative_path := rel_path, status := "added",
           location_a := none, location_b := some path_b,
           lines_added := 0, lines_removed := 0, diff := [] }
  else none

/-- The module constant `COMPOUND_EXTENSIONS = (".build.cs", ".target.cs")`. -/
def COMPOUND_EXTENSIONS : List String := [".build.cs", ".target.cs"]

/-- One regular file visited by `os.walk`: the directory holding it and
its filename. -/
structure WalkEntry where
  dirpath : String
  fname : String
deriving DecidableEq

/-- Python `os.path.join` with the normalized separator. -/
def os_path_join (a b : String) : String := a ++ "/" ++ b

/-- Extension of `os.path.splitext(fname)[1]` for a bare filename: the
part from the last dot, unless only dots stand before that dot. -/
def splitext_ext (fname : String) : String :=
  let rev := fname.data.reverse
  let tail_part := rev.takeWhile (fun c => c ≠ '.')
  if tail_part.length = rev.length then ""
  else if (rev.drop (tail_part.length + 1)).all (fun c => c == '.') then ""
  else String.mk ('.' :: tail_part.reverse)

/-- Python `str.lower()` character by character (ASCII case folding, which
covers every extension and compound suffix the source compares against). -/
def str_lower (s : String) : String := String.mk (s.data.map Char.toLower)

/-- The inclusion test of `collect_source_files`: extension in the policy
set, or any compound suffix at the end of the lowercased name. -/
def include_file (fname : String) (extensions : List String) : Bool :=
  extensions.contains (str_lower (splitext_ext fname))
    || COMPOUND_EXTENSIONS.any (fun ce => ends_with (str_lower fname) ce)

/-- Python dict assignment `m[k] = v`: replace in place, or append. -/
def dict_set (m : List (String × String)) (k v : String) : List (String × String) :=
  if m.any (fun p => p.1 == k) then m.map (fun p => if p.1 == k then (k, v) else p)
  else m ++ [(k, v)]

/-- Python dict `m.get(k, d)`. -/
def dict_get (m : List (String × String)) (k d : String) : String :=
  match m.find? (fun p => p.1 == k) with
  | some p => p.2
  | none => d

/-- `os.path.relpath(abs_path, root)` for a location under the root, as
`os.walk` produces: drop the root and the separator after it. -/
def relpath_under (abs_path root : String) : String :=
  String.mk (abs_path.data.drop (root.data.length + 1))

/-- Source `collect_source_files(root, extensions)` over the files that
`os.walk` visits (the root is taken already absolute, as after
`os.path.abspath`): a relative-path-to-absolute-path dict restricted to
the inclusion policy. -/
def collect_source_files (root : String) (walk : List WalkEntry) (extensions : List String) :
    List (String × String) :=
  walk.foldl
    (fun result e =>
      if include_file e.fname extensions then
        dict_set result (relpath_under (os_path_join e.dirpath e.fname) root)
          (os_path_join e.dirpath e.fname)
      else result)
    []

/-- Lexicographic comparison of character lists by codepoint: the order
Python's `sorted` and string `<` use. -/
def chars_le : List Char → List Char → Bool
  | [], _ => true
  | _ :: _, [] => false
  | c :: cs, d :: ds => if c = d then chars_le cs ds else decide (c < d)

/-- Python's lexicographic `<=` on strings, by codepoint. -/
def str_le (x y : String) : Prop := chars_le x.data y.data = true

instance : DecidableRel str_le := fun x y =>
  inferInstanceAs (Decidable (chars_le x.data y.data = true))

instance : IsTotal String str_le := by
  have h : ∀ a b : List Char, chars_le a b = true ∨ chars_le b a = true := by
    intro a
    induction a with
    | nil => intro b; exact Or.inl rfl
    | cons c cs ih =>
      intro b
      cases b with
      | nil => exact Or.inr rfl
      | cons d ds =>
        by_cases hcd : c = d
        · subst hcd
          rcases ih ds with h1 | h1
          · exact Or.inl (by simp [chars_le, h1])
          · exact Or.inr (by simp [chars_le, h1])
        · rcases lt_or_gt_of_ne hcd with hlt | hgt
          · exact Or.inl (by simp [chars_le, hcd, hlt])
          · exact Or.inr (by simp [chars_le, Ne.symm hcd, hgt])
  exact ⟨fun x y => h x.data y.data⟩

instance : IsTrans String str_le := by
  have h : ∀ a b c : List Char,
      chars_le a b = true → chars_le b c = true → chars_le a c = true := by
    intro a
    induction a with
    | nil => intro b c _ _; rfl
    | cons x xs ih =>
      intro b c hab hbc
      cases b with
      | nil => simp [chars_le] at hab
      | cons y ys =>
        cases c with
        | nil => simp [chars_le] at hbc
        | cons z zs =>
          by_cases hxy : x = y
          · subst hxy
            by_cases hxz : x = z
            · subst hxz
              simp only [chars_le, if_pos rfl] at hab hbc ⊢
              exact ih ys zs hab hbc
            · simp only [chars_le, if_pos rfl] at hab
              simp only [chars_le, if_neg hxz] at hbc ⊢
              exact hbc
          · by_cases hyz : y = z
            · subst hyz
              simp only [chars_le, if_neg hxy] at hab ⊢
              exact hab
            · by_cases hxz : x = z
              · subst hxz
                simp only [chars_le, if_neg hxy, decide_eq_true_eq] at hab
                simp only [chars_le, if_neg hyz, decide_eq_true_eq] at hbc
                exact absurd (lt_trans hab hbc) (lt_irrefl x)
              · simp only [chars_le, if_neg hxy, decide_eq_true_eq] at hab
                simp only [chars_le, if_neg hyz, decide_eq_true_eq] at hbc
                simp only [chars_le, if_neg hxz, decide_eq_true_eq]
                exact lt_trans hab hbc
  exact ⟨fun x y z => h x.data y.data z.data⟩

/-- The comparison plan of `_comparison_worker`:
`sorted(set(files_a.keys()) | set(files_b.keys()))`. -/
def all_paths (files_a files_b : List (String × String)) : List String :=
  List.insertionSort str_le ((files_a.map Prod.fst ++ files_b.map Prod.fst).dedup)

/-- Body of one scheduled worker for a plan entry: resolve the two
candidate absolute locations (falling back to joining the engine root
with the relative path) and compare. -/
def worker_result (fs : FS) (ea eb : String) (files_a files_b : List (String × String))
    (ctx : Nat) (rel_path : String) : Option FileDiff :=
  compare_file fs rel_path
    (dict_get files_a rel_path (os_path_join ea rel_path))
    (dict_get files_b rel_path (os_path_join eb rel_path)) ctx

/-- The shared `diffs` list after all workers finished, appended in the
completion order `order` (a permutation of the plan). -/
def collect_results (fs : FS) (ea eb : String) (files_a files_b : List (String × String))
    (ctx : Nat) (order : List String) : List FileDiff :=
  order.filterMap (worker_result fs ea eb files_a files_b ctx)

/-- Ordering used by `diffs.sort(key=lambda d: d.relative_path)`. -/
def rel_le (d e : FileDiff) : Prop := str_le d.relative_path e.relative_path

instance : DecidableRel rel_le := fun d e =>
  inferInstanceAs (Decidable (str_le d.relative_path e.relative_path))

/-- Strict version of `rel_le`, used to pin sorted outputs down uniquely. -/
def rel_lt (d e : FileDiff) : Prop :=
  (chars_le d.relative_path.data e.relative_path.data
    && !chars_le e.relative_path.data d.relative_path.data) = true

instance : IsAntisymm FileDiff rel_lt := by
  refine ⟨fun a b h1 h2 => ?_⟩
  simp only [rel_lt, Bool.and_eq_true, Bool.not_eq_true'] at h1 h2
  exact absurd h2.1 (by simp [h1.2])

/-- The record list of the report: the collected results sorted by
relative path. -/
def final_records (fs : FS) (ea eb : String) (files_a files_b : List (String × String))
    (ctx : Nat) (order : List String) : List FileDiff :=
  List.insertionSort rel_le (collect_results fs ea eb files_a files_b ctx order)

/-- The `summary` dict of the report. -/
structure Summary where
  engine_a : String
  engine_b : String
  total_files_scanned : Nat
  files_modified : Nat
  files_added : Nat
  files_removed : Nat
  total_lines_added : Nat
  total_lines_removed : Nat
deriving DecidableEq

/-- Summary construction of `_comparison_worker` from the sorted records. -/
def build_summary (ea eb : String) (total : Nat) (diffs : List FileDiff) : Summary :=
  { engine_a := ea, engine_b := eb,
    total_files_scanned := total,
    files_modified := diffs.countP (fun d => d.status == "modified"),
    files_added := diffs.countP (fun d => d.status == "added"),
    files_removed := diffs.countP (fun d => d.status == "removed"),
    total_lines_added := (diffs.map FileDiff.lines_added).sum,
    total_lines_removed := (diffs.map FileDiff.lines_removed).sum }

/-- Pure core of `_comparison_worker`: the plan, the per-path comparisons
collected in completion order, the sort, and the summary. -/
def run_report (fs : FS) (ea eb : String) (files_a files_b : List (String × String))
    (ctx : Nat) (order : List String) : Summary × List FileDiff :=
  let paths := all_paths files_a files_b
  let diffs := final_records fs ea eb files_a files_b ctx order
  (build_summary ea eb paths.length diffs, diffs)

instance : IsTotal FileDiff rel_le :=
  ⟨fun a b => total_of str_le a.relative_path b.relative_path⟩

instance : IsTrans FileDiff rel_le :=
  ⟨fun _ _ _ h1 h2 => trans_of str_le h1 h2⟩

/-- Fixture: an empty readable file at `a`, and a readable file with the
single line `++x\n` (bytes 43 43 120 10) at `b`. -/
def fsC1 : FS := fun p =>
  if p = "a" then .file true [] else if p = "b" then .file true [43, 43, 120, 10] else .absent

/-- Fixture: two existing files with different byte contents, both
unreadable. -/
def fsC2 : FS := fun p =>
  if p = "a" then .file false [0] else if p = "b" then .file false [1] else .absent

/-- Fixture: two identical readable one-byte files. -/
def fsW3 : FS := fun p =>
  if p = "a" then .file true [120] else if p = "b" then .file true [120] else .absent

/-- Fixture: a readable file at `a`, another at `b2`, nothing elsewhere. -/
def fsW4 : FS := fun p =>
  if p = "a" then .file true [120] else if p = "b2" then .file true [121] else .absent

/-- Fixture: the empty filesystem. -/
def fsW9 : FS := fun _ => .absent

/-- Fixture: an empty readable file at `a`, and a readable `++x\n` file at
`b` (the same shape as `fsC1`, kept separate per claim). -/
def fsW10 : FS := fun p =>
  if p = "a" then .file true [] else if p = "b" then .file true [43, 43, 120, 10] else .absent

/-- Fixture: the record `compare_file fsW10 "p" "a" "b" 3` produces. -/
def dW10 : FileDiff :=
  { relative_path := "p", status := "modified", location_a := some "a", location_b := some "b",
    lines_added := 0, lines_removed := 0,
    diff := ["--- A/p", "+++ B/p", "@@ -0,0 +1 @@", "+++x"] }

/-- Fixture: only `A/p` and `B/q` exist, both readable. -/
def fsW5 : FS := fun p =>
  if p = "A/p" then .file true [104] else if p = "B/q" then .file true [105] else .absent

/-- Fixture: path index of side A for the determinism witness. -/
def faW : List (String × String) := [("p", "A/p")]

/-- Fixture: path index of side B for the determinism witness. -/
def fbW : List (String × String) := [("q", "B/q")]

/-- Fixture: a filesystem where `a` exists but is unreadable and `b` is a
readable empty file: the digests differ yet both line lists are empty, so
the diff body is empty. -/
def fsW3b : FS := fun p =>
  if p = "a" then .file false [7] else if p = "b" then .file true [] else .absent

/-- Fixture: one walk entry whose filename carries a compound suffix. -/
def walkW : List WalkEntry := [⟨"/r/sub", "Foo.Build.cs"⟩]

/-!  Theorems.  -/

/-- Any record `compare_file` yields carries the relative path it was
asked about. -/
theorem compare_file_rel_eq (fs : FS) (rel pa pb : String) (ctx : Nat) (d : FileDiff)
    (h : compare_file fs rel pa pb ctx = some d) : d.relative_path = rel := by
  simp only [compare_file] at h
  split at h
  · split at h
    · exact absurd h (by simp)
    · split at h
      · exact absurd h (by simp)
      · simp only [Option.some.injEq] at h
        subst h
        rfl
  · split at h
    · simp only [Option.some.injEq] at h
      subst h
      rfl
    · split at h
      · simp only [Option.some.injEq] at h
        subst h
        rfl
      · exact absurd h (by simp)

/-- Any record `compare_file` yields has one of the three statuses. -/
theorem compare_file_status_cases (fs : FS) (rel pa pb : String) (ctx : Nat) (d : FileDiff)
    (h : compare_file fs rel pa pb ctx = some d) :
    d.status = "modified" ∨ d.status = "added" ∨ d.status = "removed" := by
  simp only [compare_file] at h
  split at h
  · split at h
    · exact absurd h (by simp)
    · split at h
      · exact absurd h (by simp)
      · simp only [Option.some.injEq] at h
        subst h
        exact Or.inl rfl
  · split at h
    · simp only [Option.some.injEq] at h
      subst h
      exact Or.inr (Or.inr rfl)
    · split at h
      · simp only [Option.some.injEq] at h
        subst h
        exact Or.inr (Or.inl rfl)
      · exact absurd h (by simp)

/-- C1: for files whose content lines themselves begin with `++`, the
marker-lookahead count of `compare_file` does not equal the number of
addition-tagged lines outside the two header lines.  At this input the
produced diff has, after its two header lines, exactly one line starting
with `+` (the added content line `++x`), yet the record reports
`lines_added = 0`: the added line `+` ++ `++x\n` is mistaken for a file
header by the `startswith("+++")` lookahead. -/
theorem c1_lookahead_count_bug :
    compare_file fsC1 "p" "a" "b" 3 = some
      { relative_path := "p", status := "modified",
        location_a := some "a", location_b := some "b",
        lines_added := 0, lines_removed := 0,
        diff := ["--- A/p", "+++ B/p", "@@ -0,0 +1 @@", "+++x"] } ∧
    ((unified_diff (read_lines (fsC1 "a")) (read_lines (fsC1 "b")) "A/p" "B/p" 3).drop 2).countP
        (fun l => starts_with l "+") = 1 := by
  constructor
  · decide
  · decide

/-- C2: two existing files with different contents that are both
unreadable get the same empty sentinel digest from `fast_hash`, and
`compare_file` therefore reports them as unchanged (no record), exactly
what the spec forbids. -/
theorem c2_unreadable_reported_unchanged :
    fsC2 "a" ≠ fsC2 "b" ∧
    isfile (fsC2 "a") = true ∧ isfile (fsC2 "b") = true ∧
    fast_hash (fsC2 "a") = "" ∧ fast_hash (fsC2 "b") = "" ∧
    compare_file fsC2 "p" "a" "b" 3 = none := by
  refine ⟨by decide, by decide, by decide, by decide, by decide, by decide⟩

/-- C3: when both files exist, equal digests yield no record, and when the
digests differ but the computed diff body is empty the record is also
suppressed. -/
theorem c3_unchanged_and_empty_diff_suppressed (fs : FS) (rel pa pb : String) (ctx : Nat)
    (ha : isfile (fs pa) = true) (hb : isfile (fs pb) = true) :
    (fast_hash (fs pa) = fast_hash (fs pb) → compare_file fs rel pa pb ctx = none) ∧
    (fast_hash (fs pa) ≠ fast_hash (fs pb) →
      unified_diff (read_lines (fs pa)) (read_lines (fs pb))
          ("A/" ++ rel) ("B/" ++ rel) ctx = [] →
      compare_file fs rel pa pb ctx = none) := by
  constructor
  · intro hh
    simp [compare_file, ha, hb, hh]
  · intro hne hdiff
    simp [compare_file, ha, hb, hne, hdiff]

/-- Witness for C3 at two identical readable files. -/
theorem c3_witness :
    (isfile (fsW3 "a") = true ∧ isfile (fsW3 "b") = true) ∧
    ((fast_hash (fsW3 "a") = fast_hash (fsW3 "b") → compare_file fsW3 "p" "a" "b" 3 = none) ∧
      (fast_hash (fsW3 "a") ≠ fast_hash (fsW3 "b") →
        unified_diff (read_lines (fsW3 "a")) (read_lines (fsW3 "b"))
            ("A/" ++ "p") ("B/" ++ "p") 3 = [] →
        compare_file fsW3 "p" "a" "b" 3 = none)) :=
  ⟨⟨by decide, by decide⟩,
    c3_unchanged_and_empty_diff_suppressed fsW3 "p" "a" "b" 3 (by decide) (by decide)⟩

/-- C4: a file on exactly one side yields a Removed record (side A only,
`location_b` absent) or an Added record (side B only, `location_a`
absent), with zero line counts and an empty diff; the result is the same
fixed record for every file content, so no content is read. -/
theorem c4_single_side_records (fs : FS) (rel pa pb : String) (ctx : Nat) :
    (isfile (fs pa) = true → isfile (fs pb) = false →
      compare_file fs rel pa pb ctx = some
        { relative_path := rel, status := "removed", location_a := some pa,
          location_b := none, lines_added := 0, lines_removed := 0, diff := [] }) ∧
    (isfile (fs pa) = false → isfile (fs pb) = true →
      compare_file fs rel pa pb ctx = some
        { relative_path := rel, status := "added", location_a := none,
          location_b := some pb, lines_added := 0, lines_removed := 0, diff := [] }) := by
  constructor
  · intro ha hb
    simp [compare_file, ha, hb]
  · intro ha hb
    simp [compare_file, ha, hb]

/-- Witness for C4 in both directions. -/
theorem c4_witness :
    compare_file fsW4 "p" "a" "b" 3 = some
      { relative_path := "p", status := "removed", location_a := some "a",
        location_b := none, lines_added := 0, lines_removed := 0, diff := [] } ∧
    compare_file fsW4 "q" "zz" "b2" 3 = some
      { relative_path := "q", status := "added", location_a := none,
        location_b := some "b2", lines_added := 0, lines_removed := 0, diff := [] } :=
  ⟨(c4_single_side_records fsW4 "p" "a" "b" 3).1 (by decide) (by decide),
    (c4_single_side_records fsW4 "q" "zz" "b2" 3).2 (by decide) (by decide)⟩

/-- C9: a plan entry whose file exists on neither side at comparison time
produces no record and raises nothing: it is silently dropped. -/
theorem c9_vanished_entry_dropped (fs : FS) (rel pa pb : String) (ctx : Nat)
    (ha : isfile (fs pa) = false) (hb : isfile (fs pb) = false) :
    compare_file fs rel pa pb ctx = none := by
  simp [compare_file, ha, hb]

/-- Witness for C9 on the empty filesystem. -/
theorem c9_witness : compare_file fsW9 "p" "x" "y" 3 = none :=
  c9_vanished_entry_dropped fsW9 "p" "x" "y" 3 (by decide) (by decide)

/-- A character surviving `dropWhile` at the head does not satisfy the
predicate. -/
theorem head_dropWhile_false (p : Char → Bool) :
    ∀ (l : List Char) (c : Char), (l.dropWhile p).head? = some c → p c = false := by
  intro l
  induction l with
  | nil => intro c h; simp [List.dropWhile] at h
  | cons x t ih =>
    intro c h
    rw [List.dropWhile_cons] at h
    by_cases hx : p x = true
    · rw [if_pos hx] at h
      exact ih c h
    · rw [if_neg hx] at h
      simp only [List.head?_cons, Option.some.injEq] at h
      subst h
      exact Bool.not_eq_true _ |>.mp hx

/-- Appending a non-newline character is transparent to `dropWhile`. -/
theorem dropWhile_append_single (p : Char → Bool) (c : Char) (hc : p c = false) :
    ∀ (l : List Char), (l ++ [c]).dropWhile p = l.dropWhile p ++ [c] := by
  intro l
  induction l with
  | nil => simp [List.dropWhile, hc]
  | cons x t ih =>
    rw [List.cons_append, List.dropWhile_cons, List.dropWhile_cons]
    by_cases hx : p x = true
    · rw [if_pos hx, if_pos hx, ih]
    · rw [if_neg hx, if_neg hx, List.cons_append]

/-- `rstripL` keeps a non-newline head character in place. -/
theorem rstripL_cons (c : Char) (hc : (c == '\n') = false) (l : List Char) :
    rstripL (c :: l) = c :: rstripL l := by
  unfold rstripL
  rw [List.reverse_cons, dropWhile_append_single _ c hc, List.reverse_append]
  rfl

/-- The result of `rstripL` never ends in a newline. -/
theorem rstripL_getLast_ne_newline (l : List Char) :
    ((rstripL l).getLast? == some '\n') = false := by
  unfold rstripL
  rw [List.getLast?_reverse]
  cases hh : (l.reverse.dropWhile (fun c => c == '\n')).head? with
  | none => rfl
  | some c =>
    have hc := head_dropWhile_false (fun c => c == '\n') l.reverse c hh
    show (c == '\n') = false
    exact hc

/-- Stored diff lines never carry a trailing newline. -/
theorem rstrip_newline_no_trailing (s : String) :
    ends_with_newline (rstrip_newline s) = false := by
  unfold ends_with_newline rstrip_newline
  exact rstripL_getLast_ne_newline s.data

/-- A string whose text begins with three copies of a non-newline marker
still begins with them after `rstrip_newline`. -/
theorem starts_with_rstrip_marker (m : Char) (hm2 : (m == '\n') = false) (x : String)
    (t : List Char) (hx : x.data = m :: m :: m :: t) :
    starts_with (rstrip_newline x) (String.mk [m, m, m]) = true := by
  show List.isPrefixOf [m, m, m] (rstripL x.data) = true
  rw [hx, rstripL_cons m hm2, rstripL_cons m hm2, rstripL_cons m hm2]
  simp [List.isPrefixOf]

/-- A nonempty `unified_diff` output begins with the two file-header
lines. -/
theorem unified_diff_header_structure (a b : List String) (ff tf : String) (n : Nat)
    (h : (unified_diff a b ff tf n).isEmpty = false) :
    ∃ rest, unified_diff a b ff tf n =
      ("--- " ++ ff ++ "\n") :: ("+++ " ++ tf ++ "\n") :: rest := by
  simp only [unified_diff] at h ⊢
  by_cases hg : (get_grouped_opcodes a b n).isEmpty = true
  · rw [if_pos hg] at h
    exact absurd h (by simp)
  · rw [if_neg hg]
    exact ⟨_, rfl⟩

/-- C10: every Modified record has a diff whose first two entries are the
side-A and side-B file-header lines (beginning `---` and `+++`), and all
stored diff lines have their trailing newline removed. -/
theorem c10_modified_diff_headers (fs : FS) (rel pa pb : String) (ctx : Nat) (d : FileDiff)
    (h : compare_file fs rel pa pb ctx = some d) (hm : d.status = "modified") :
    (∃ rest, d.diff =
        rstrip_newline ("--- " ++ ("A/" ++ rel) ++ "\n")
          :: rstrip_newline ("+++ " ++ ("B/" ++ rel) ++ "\n") :: rest) ∧
    starts_with (d.diff.headD "") "---" = true ∧
    starts_with ((d.diff.drop 1).headD "") "+++" = true ∧
    (∀ l ∈ d.diff, ends_with_newline l = false) := by
  simp only [compare_file] at h
  split at h
  · split at h
    · exact absurd h (by simp)
    · split at h
      next hde => exact absurd h (by simp)
      next hne =>
        simp only [Option.some.injEq] at h
        subst h
        obtain ⟨rest, hrest⟩ :=
          unified_diff_header_structure (read_lines (fs pa)) (read_lines (fs pb))
            ("A/" ++ rel) ("B/" ++ rel) ctx ((Bool.not_eq_true _).mp hne)
        refine ⟨⟨List.map rstrip_newline rest, ?_⟩, ?_, ?_, ?_⟩
        · show (unified_diff _ _ _ _ _).map rstrip_newline = _
          rw [hrest]
          rfl
        · show starts_with (((unified_diff _ _ _ _ _).map rstrip_newline).headD "") "---" = true
          rw [hrest]
          simp only [List.map_cons, List.headD_cons]
          have hlit : ("---" : String) = String.mk ['-', '-', '-'] := rfl
          rw [hlit]
          exact starts_with_rstrip_marker '-' (by decide) _
            (' ' :: (("A/" ++ rel).data ++ ['\n'])) rfl
        · show starts_with ((((unified_diff _ _ _ _ _).map rstrip_newline).drop 1).headD "")
            "+++" = true
          rw [hrest]
          simp only [List.map_cons, List.drop_succ_cons, List.drop_zero, List.headD_cons]
          have hlit : ("+++" : String) = String.mk ['+', '+', '+'] := rfl
          rw [hlit]
          exact starts_with_rstrip_marker '+' (by decide) _
            (' ' :: (("B/" ++ rel).data ++ ['\n'])) rfl
        · intro l hl
          simp only at hl
          obtain ⟨y, _, rfl⟩ := List.mem_map.mp hl
          exact rstrip_newline_no_trailing y
  · split at h
    · simp only [Option.some.injEq] at h
      subst h
      exact absurd hm (by simp)
    · split at h
      · simp only [Option.some.injEq] at h
        subst h
        exact absurd hm (by simp)
      · exact absurd h (by simp)

/-- Witness for C10 at a concrete modified record. -/
theorem c10_witness :
    (∃ rest, dW10.diff =
        rstrip_newline ("--- " ++ ("A/" ++ "p") ++ "\n")
          :: rstrip_newline ("+++ " ++ ("B/" ++ "p") ++ "\n") :: rest) ∧
    starts_with (dW10.diff.headD "") "---" = true ∧
    starts_with ((dW10.diff.drop 1).headD "") "+++" = true ∧
    (∀ l ∈ dW10.diff, ends_with_newline l = false) :=
  c10_modified_diff_headers fsW10 "p" "a" "b" 3 dW10 (by decide) (by decide)

/-- A worker record carries the plan entry it came from. -/
theorem worker_result_rel_eq (fs : FS) (ea eb : String) (fa fb : List (String × String))
    (ctx : Nat) (rp : String) (d : FileDiff)
    (h : worker_result fs ea eb fa fb ctx rp = some d) : d.relative_path = rp :=
  compare_file_rel_eq fs rp _ _ ctx d h

/-- The relative paths of the collected records form a sublist of the
completion order. -/
theorem collect_results_rel_sublist (fs : FS) (ea eb : String)
    (fa fb : List (String × String)) (ctx : Nat) :
    ∀ (l : List String),
      ((collect_results fs ea eb fa fb ctx l).map (fun d => d.relative_path)).Sublist l := by
  intro l
  induction l with
  | nil => simp [collect_results]
  | cons x t ih =>
    show ((List.filterMap _ (x :: t)).map _).Sublist (x :: t)
    rw [List.filterMap_cons]
    cases hw : worker_result fs ea eb fa fb ctx x with
    | none => exact ih.cons x
    | some d =>
      rw [List.map_cons, worker_result_rel_eq fs ea eb fa fb ctx x d hw]
      exact ih.cons₂ x

/-- Lexicographic comparison is antisymmetric. -/
theorem chars_le_antisymm :
    ∀ (a b : List Char), chars_le a b = true → chars_le b a = true → a = b := by
  intro a
  induction a with
  | nil =>
    intro b hab hba
    cases b with
    | nil => rfl
    | cons d ds => simp [chars_le] at hba
  | cons c cs ih =>
    intro b hab hba
    cases b with
    | nil => simp [chars_le] at hab
    | cons d ds =>
      by_cases hcd : c = d
      · subst hcd
        simp only [chars_le, if_pos rfl] at hab hba
        rw [ih ds hab hba]
      · simp only [chars_le, if_neg hcd, decide_eq_true_eq] at hab
        simp only [chars_le, if_neg (Ne.symm hcd), decide_eq_true_eq] at hba
        exact absurd (lt_trans hab hba) (lt_irrefl c)

/-- A pair in the `rel_le` order with distinct relative paths is in the
strict order. -/
theorem rel_lt_of_rel_le_ne (a b : FileDiff) (hle : rel_le a b)
    (hne : a.relative_path ≠ b.relative_path) : rel_lt a b := by
  show (_ && _) = true
  rw [Bool.and_eq_true]
  refine ⟨hle, ?_⟩
  rw [Bool.not_eq_true']
  by_contra hba
  rw [Bool.not_eq_false] at hba
  exact hne (String.ext (chars_le_antisymm _ _ hle hba))

/-- Collected results sorted by relative path do not depend on the
completion order, provided the order enumerates a duplicate-free plan. -/
theorem final_records_eq_of_perm (fs : FS) (ea eb : String) (fa fb : List (String × String))
    (ctx : Nat) (o1 o2 : List String) (hp : o1.Perm o2) (hn : o1.Nodup) :
    final_records fs ea eb fa fb ctx o1 = final_records fs ea eb fa fb ctx o2 := by
  have hc : (collect_results fs ea eb fa fb ctx o1).Perm (collect_results fs ea eb fa fb ctx o2) :=
    hp.filterMap _
  have hs : (final_records fs ea eb fa fb ctx o1).Perm (final_records fs ea eb fa fb ctx o2) :=
    ((List.perm_insertionSort rel_le _).trans hc).trans (List.perm_insertionSort rel_le _).symm
  have hsorted1 : (final_records fs ea eb fa fb ctx o1).Sorted rel_le :=
    List.sorted_insertionSort rel_le _
  have hsorted2 : (final_records fs ea eb fa fb ctx o2).Sorted rel_le :=
    List.sorted_insertionSort rel_le _
  have hkeys1 : ((final_records fs ea eb fa fb ctx o1).map (fun d => d.relative_path)).Nodup := by
    have h1 : ((collect_results fs ea eb fa fb ctx o1).map (fun d => d.relative_path)).Nodup :=
      (collect_results_rel_sublist fs ea eb fa fb ctx o1).nodup hn
    exact ((List.perm_insertionSort rel_le
      (collect_results fs ea eb fa fb ctx o1)).map (fun d => d.relative_path)).symm.nodup h1
  have hkeys2 : ((final_records fs ea eb fa fb ctx o2).map (fun d => d.relative_path)).Nodup :=
    (hs.map (fun d => d.relative_path)).nodup hkeys1
  have hlt1 : (final_records fs ea eb fa fb ctx o1).Pairwise rel_lt := by
    have hne := (List.pairwise_map.mp hkeys1)
    exact (hsorted1.and hne).imp (fun hab => rel_lt_of_rel_le_ne _ _ hab.1 hab.2)
  have hlt2 : (final_records fs ea eb fa fb ctx o2).Pairwise rel_lt := by
    have hne := (List.pairwise_map.mp hkeys2)
    exact (hsorted2.and hne).imp (fun hab => rel_lt_of_rel_le_ne _ _ hab.1 hab.2)
  exact List.eq_of_perm_of_sorted hs hlt1 hlt2

/-- The comparison plan is duplicate-free. -/
theorem all_paths_nodup (fa fb : List (String × String)) : (all_paths fa fb).Nodup :=
  (List.perm_insertionSort _ _).symm.nodup (List.nodup_dedup _)

/-- The comparison plan is sorted. -/
theorem all_paths_sorted (fa fb : List (String × String)) :
    (all_paths fa fb).Sorted str_le :=
  List.sorted_insertionSort _ _

/-- The comparison plan enumerates exactly the union of the two key sets. -/
theorem all_paths_mem (fa fb : List (String × String)) (p : String) :
    p ∈ all_paths fa fb ↔ p ∈ fa.map Prod.fst ∨ p ∈ fb.map Prod.fst := by
  unfold all_paths
  rw [(List.perm_insertionSort _ _).mem_iff, List.mem_dedup, List.mem_append]

/-- C5: the report is deterministic: the plan is the lexicographically
sorted, duplicate-free union of the two key sets, the record list is
sorted by relative path, and two runs whose workers complete in any two
orders of the same plan produce identical reports. -/
theorem c5_deterministic_report (fs : FS) (ea eb : String) (fa fb : List (String × String))
    (ctx : Nat) (o1 o2 : List String)
    (h1 : o1.Perm (all_paths fa fb)) (h2 : o2.Perm (all_paths fa fb)) :
    run_report fs ea eb fa fb ctx o1 = run_report fs ea eb fa fb ctx o2 ∧
    (all_paths fa fb).Sorted str_le ∧
    (all_paths fa fb).Nodup ∧
    (∀ p, p ∈ all_paths fa fb ↔ p ∈ fa.map Prod.fst ∨ p ∈ fb.map Prod.fst) ∧
    (final_records fs ea eb fa fb ctx o1).Sorted rel_le := by
  have hrec : final_records fs ea eb fa fb ctx o1 = final_records fs ea eb fa fb ctx o2 :=
    final_records_eq_of_perm fs ea eb fa fb ctx o1 o2 (h1.trans h2.symm)
      (h1.symm.nodup (all_paths_nodup fa fb))
  refine ⟨?_, all_paths_sorted fa fb, all_paths_nodup fa fb, all_paths_mem fa fb,
    List.sorted_insertionSort rel_le _⟩
  unfold run_report
  rw [hrec]

/-- Witness for C5: two completion orders of a two-entry plan. -/
theorem c5_witness :
    ((["p", "q"] : List String).Perm (all_paths faW fbW) ∧
      (["q", "p"] : List String).Perm (all_paths faW fbW)) ∧
    (run_report fsW5 "A" "B" faW fbW 3 ["p", "q"] = run_report fsW5 "A" "B" faW fbW 3 ["q", "p"] ∧
      (all_paths faW fbW).Sorted str_le ∧
      (all_paths faW fbW).Nodup ∧
      (∀ p, p ∈ all_paths faW fbW ↔ p ∈ faW.map Prod.fst ∨ p ∈ fbW.map Prod.fst) ∧
      (final_records fsW5 "A" "B" faW fbW 3 ["p", "q"]).Sorted rel_le) :=
  ⟨⟨by decide, by decide⟩,
    c5_deterministic_report fsW5 "A" "B" faW fbW 3 ["p", "q"] ["q", "p"]
      (by decide) (by decide)⟩

/-- Three mutually exclusive status tests partition any record list. -/
theorem countP_status_partition (l : List FileDiff)
    (h : ∀ d ∈ l, d.status = "modified" ∨ d.status = "added" ∨ d.status = "removed") :
    l.countP (fun d => d.status == "modified") + l.countP (fun d => d.status == "added")
      + l.countP (fun d => d.status == "removed") = l.length := by
  induction l with
  | nil => rfl
  | cons d t ih =>
    have hd := h d (List.mem_cons_self d t)
    have ht := ih (fun e he => h e (List.mem_cons_of_mem d he))
    rw [List.countP_cons, List.countP_cons, List.countP_cons, List.length_cons]
    rcases hd with hs | hs | hs <;> rw [hs] <;> simp <;> omega

/-- Every final record has one of the three statuses. -/
theorem final_records_status (fs : FS) (ea eb : String) (fa fb : List (String × String))
    (ctx : Nat) (o : List String) (d : FileDiff)
    (hd : d ∈ final_records fs ea eb fa fb ctx o) :
    d.status = "modified" ∨ d.status = "added" ∨ d.status = "removed" := by
  have hd2 : d ∈ collect_results fs ea eb fa fb ctx o :=
    (List.perm_insertionSort rel_le _).mem_iff.mp hd
  obtain ⟨rp, _, hw⟩ := List.mem_filterMap.mp hd2
  exact compare_file_status_cases fs rp _ _ ctx d hw

/-- The plan length is the cardinality of the union of the key sets. -/
theorem all_paths_length_card (fa fb : List (String × String)) :
    (all_paths fa fb).length
      = ((fa.map Prod.fst).toFinset ∪ (fb.map Prod.fst).toFinset).card := by
  unfold all_paths
  rw [(List.perm_insertionSort _ _).length_eq, ← List.toFinset_append, List.card_toFinset]

/-- C6: in every produced report, modified + added + removed record
counts equal the record-list length, and the total-files-scanned counter
is the cardinality of the union of the two trees' relative-path key
sets. -/
theorem c6_summary_invariant (fs : FS) (ea eb : String) (fa fb : List (String × String))
    (ctx : Nat) (o : List String) :
    (run_report fs ea eb fa fb ctx o).1.files_modified
        + (run_report fs ea eb fa fb ctx o).1.files_added
        + (run_report fs ea eb fa fb ctx o).1.files_removed
      = (run_report fs ea eb fa fb ctx o).2.length ∧
    (run_report fs ea eb fa fb ctx o).1.total_files_scanned
      = ((fa.map Prod.fst).toFinset ∪ (fb.map Prod.fst).toFinset).card := by
  constructor
  · exact countP_status_partition (final_records fs ea eb fa fb ctx o)
      (final_records_status fs ea eb fa fb ctx o)
  · exact all_paths_length_card fa fb

/-- C7 counterexample: on the byte `0xFF` the source and the spec-worded
chain of decoders disagree.  The source opens every attempt with
`errors="replace"`, so the first (UTF-8) decoder already succeeds and
yields the replacement character; under the spec's chain, strict UTF-8
and strict UTF-8-with-BOM both fail and the latin-1 fallback yields the
character U+00FF instead. -/
theorem c7_chain_counterexample :
    read_lines (.file true [255]) = [String.mk [repl_char]] ∧
    read_lines_spec_chain [255] = [String.mk [Char.ofNat 255]] ∧
    read_lines (.file true [255]) ≠ read_lines_spec_chain [255] := by
  refine ⟨by decide, by decide, by decide⟩

/-- C7 (amended): every decode attempt of `read_lines` passes
`errors="replace"`, so the first attempt — UTF-8 with replacement, a
total function — always succeeds on a readable byte sequence: the
fallback encodings are never consulted and no readable file is ever
dropped for encoding reasons. -/
theorem c7_first_attempt_always_succeeds (bs : List Nat) :
    read_attempt (.file true bs) .utf8 =
      some (split_lines_keepends (universal_newlines (utf8_decode_replace bs.length bs))) ∧
    read_lines (.file true bs) =
      split_lines_keepends (universal_newlines (utf8_decode_replace bs.length bs)) :=
  ⟨rfl, rfl⟩

/-- Keys already present survive a dict assignment. -/
theorem dict_set_keys_mono (m : List (String × String)) (k k2 v2 : String)
    (h : k ∈ m.map Prod.fst) : k ∈ (dict_set m k2 v2).map Prod.fst := by
  unfold dict_set
  by_cases hc : m.any (fun p => p.1 == k2) = true
  · rw [if_pos hc]
    obtain ⟨p, hp, hpk⟩ := List.mem_map.mp h
    refine List.mem_map.mpr ⟨if p.1 == k2 then (k2, v2) else p, List.mem_map_of_mem _ hp, ?_⟩
    by_cases hpe : p.1 == k2
    · simp only [if_pos hpe, ← hpk]
      exact (eq_of_beq hpe).symm
    · rw [if_neg hpe]
      exact hpk
  · rw [if_neg hc, List.map_append]
    exact List.mem_append_left _ h

/-- A dict assignment puts its key among the keys. -/
theorem dict_set_mem_keys (m : List (String × String)) (k v : String) :
    k ∈ (dict_set m k v).map Prod.fst := by
  unfold dict_set
  by_cases hc : m.any (fun p => p.1 == k) = true
  · rw [if_pos hc]
    obtain ⟨p, hp, hpk⟩ := List.any_eq_true.mp hc
    refine List.mem_map.mpr ⟨(k, v), List.mem_map.mpr ⟨p, hp, ?_⟩, rfl⟩
    rw [if_pos hpk]
  · rw [if_neg hc, List.map_append]
    exact List.mem_append_right _ (by simp)

/-- Keys already collected survive the rest of the scan fold. -/
theorem collect_keys_mono (root : String) (extensions : List String) :
    ∀ (walk : List WalkEntry) (acc : List (String × String)) (k : String),
      k ∈ acc.map Prod.fst →
      k ∈ (walk.foldl
            (fun result e =>
              if include_file e.fname extensions then
                dict_set result (relpath_under (os_path_join e.dirpath e.fname) root)
                  (os_path_join e.dirpath e.fname)
              else result)
            acc).map Prod.fst := by
  intro walk
  induction walk with
  | nil => intro acc k h; exact h
  | cons e t ih =>
    intro acc k h
    rw [List.foldl_cons]
    apply ih
    by_cases hinc : include_file e.fname extensions = true
    · rw [if_pos hinc]
      exact dict_set_keys_mono _ _ _ _ h
    · rw [if_neg hinc]
      exact h

/-- Any walk entry passing the inclusion test lands in the scan fold's
keys, whatever the accumulator. -/
theorem collect_foldl_key (root : String) (extensions : List String) :
    ∀ (walk : List WalkEntry) (acc : List (String × String)) (e : WalkEntry),
      e ∈ walk → include_file e.fname extensions = true →
      relpath_under (os_path_join e.dirpath e.fname) root
        ∈ (walk.foldl
            (fun result e2 =>
              if include_file e2.fname extensions then
                dict_set result (relpath_under (os_path_join e2.dirpath e2.fname) root)
                  (os_path_join e2.dirpath e2.fname)
              else result)
            acc).map Prod.fst := by
  intro walk
  induction walk with
  | nil => intro acc e he; cases he
  | cons x t ih =>
    intro acc e he hinc
    rw [List.foldl_cons]
    rcases List.mem_cons.mp he with heq | ht
    · subst heq
      rw [if_pos hinc]
      exact collect_keys_mono root extensions t _ _ (dict_set_mem_keys _ _ _)
    · exact ih _ e ht hinc

/-- C8: a file whose lowercased name ends in `.build.cs` or `.target.cs`
is always collected, for every extension policy: the compound-suffix set
is the module constant `COMPOUND_EXTENSIONS`, not part of the policy
argument. -/
theorem c8_compound_suffixes_always_included (root : String) (walk : List WalkEntry)
    (extensions : List String) (e : WalkEntry) (he : e ∈ walk)
    (hc : ends_with (str_lower e.fname) ".build.cs" = true ∨
          ends_with (str_lower e.fname) ".target.cs" = true) :
    relpath_under (os_path_join e.dirpath e.fname) root
      ∈ (collect_source_files root walk extensions).map Prod.fst := by
  have hinc : include_file e.fname extensions = true := by
    unfold include_file COMPOUND_EXTENSIONS
    rcases hc with h | h <;> simp [h]
  exact collect_foldl_key root extensions walk [] e he hinc

/-- Witness for C8: a `.Build.cs` file collected under an empty extension
policy. -/
theorem c8_witness :
    ((⟨"/r/sub", "Foo.Build.cs"⟩ : WalkEntry) ∈ walkW ∧
      ends_with (str_lower "Foo.Build.cs") ".build.cs" = true) ∧
    relpath_under (os_path_join "/r/sub" "Foo.Build.cs") "/r"
      ∈ (collect_source_files "/r" walkW []).map Prod.fst :=
  ⟨⟨by decide, by decide⟩,
    c8_compound_suffixes_always_included "/r" walkW [] ⟨"/r/sub", "Foo.Build.cs"⟩
      (by decide) (Or.inl (by decide))⟩

end SourceComparer
